import Mathlib

/-!
Shallow embedding of the 3em contract executor
(`src/crates/executor/lib.rs`) and verification of its specification.

The executor crate is the only part of the repository relevant to the
claims: it replays the interactions of a contract, in sort-key order,
through an embedded runtime, accumulating a validity table.

External collaborators of the executor (the Arweave ledger client, the
JSON (de)serializer, the JavaScript and WebAssembly runtimes, and the
state cache) are not part of `src/`; following the specification, they
are modelled as an explicit environment of functions (`ExecEnv`), and
`execute_contract` is a pure function of that environment.  A Rust
`unwrap()` on a failed value is a panic; panics are modelled by the
`none` result of `Option`.
-/

set_option maxRecDepth 10000

namespace ThreeEM

/-- JSON values (`deno_core::serde_json::Value`).  Numbers are modelled
as integers; no claim computes with numeric payloads. -/
inductive Json where
  | null : Json
  | bool (b : Bool) : Json
  | num (n : Int) : Json
  | str (s : String) : Json
  | arr (xs : List Json) : Json
  | obj (fields : List (String × Json)) : Json
deriving Repr

/-- Transaction tag (`three_em_arweave::gql_result::GQLTagInterface`).
Modelled from the spec: the GraphQL result types are not under `src/`;
spec §6 gives the node shape `tags[{name,value}]`. -/
structure GQLTagInterface where
  name : String
  value : String
deriving Repr, DecidableEq

/-- Block metadata of an interaction.  Modelled from the spec:
spec §6 gives `block{height,id,timestamp}`. -/
structure GQLBlockInterface where
  height : Nat
  id : String
  timestamp : String
deriving Repr, DecidableEq

/-- Owner of an interaction transaction.  Modelled from the spec:
spec §6 gives `owner{address}`. -/
structure GQLOwnerInterface where
  address : String
deriving Repr, DecidableEq

/-- One interaction transaction
(`three_em_arweave::gql_result::GQLNodeInterface`).  Modelled from the
spec: spec §6 gives `{ node: { id, owner{address}, tags[{name,value}],
block{height,id,timestamp} } }`. -/
structure GQLNodeInterface where
  id : String
  owner : GQLOwnerInterface
  tags : List GQLTagInterface
  block : GQLBlockInterface
deriving Repr, DecidableEq

/-- A GraphQL edge wrapping one interaction node
(`three_em_arweave::gql_result::GQLEdgeInterface`). -/
structure GQLEdgeInterface where
  node : GQLNodeInterface
deriving Repr, DecidableEq

/-- Contract kind (`three_em_arweave::miscellaneous::ContractType`).
Modelled from the spec: the type itself is not under `src/`; the
executor matches the three variants used here. -/
inductive ContractType where
  | JAVASCRIPT : ContractType
  | WASM : ContractType
  | EVM : ContractType
deriving Repr, DecidableEq

/-- Opaque metadata of the contract transaction.  Modelled from the
spec: the loader's transaction type is not under `src/`; the executor
only passes it through into `ContractInfo`. -/
structure TransactionData where
  id : String
deriving Repr, DecidableEq

/-- The block view handed to contract code
(`three_em_smartweave::ContractBlock`).  Modelled from the spec, §3:
`ContractInfo` is `{transaction, block{height,id,timestamp}}`. -/
structure ContractBlock where
  height : Nat
  indep_hash : String
  timestamp : String
deriving Repr, DecidableEq

/-- Ledger context handed to contract code
(`three_em_smartweave::ContractInfo`). -/
structure ContractInfo where
  transaction : TransactionData
  block : ContractBlock
deriving Repr, DecidableEq

/-- Result of the contract loader.  Modelled from the spec, §3:
`LoadedContract` carries `contract_type`, `source_bytes`,
`init_state_json` and the contract transaction metadata, matching the
fields the executor reads (`contract_transaction`, `contract_type`,
`contract_src`, `init_state`). -/
structure LoadedContract where
  contract_transaction : TransactionData
  contract_type : ContractType
  contract_src : List Nat
  init_state : String
deriving Repr, DecidableEq

/-- The validity table (`pub type ValidityTable = HashMap<String, bool>`),
modelled as an association list with the key uniqueness that `HashMap`
maintains (spec §3: insertion order is not material). -/
def ValidityMap : Type := List (String × Bool)

instance : DecidableEq ValidityMap := by
  unfold ValidityMap
  infer_instance

/-- `HashMap::insert`: any previous binding of the key is replaced. -/
def mapInsert (m : ValidityMap) (k : String) (b : Bool) : ValidityMap :=
  (m.filter (fun p => p.1 ≠ k)) ++ [(k, b)]

/-- `HashMap::get`: the binding of a key, if present. -/
def mapFind (m : ValidityMap) (k : String) : Option Bool :=
  (List.find? (fun p => p.1 = k) m).map (fun p => p.2)

/-- Number of entries of the table carrying the key. -/
def countKey (m : ValidityMap) (k : String) : Nat :=
  (m.filter (fun p => p.1 = k)).length

/-- A cached `{state, validity}` snapshot served by
`ARWEAVE_CACHE.find_state`.  Modelled from the spec, §3 (`CacheEntry`);
the cache crate is not under `src/`. -/
structure CachedState where
  state : Json
  validity : ValidityMap

/-- `get_input_from_interaction` (executor lines 213–223): the value of
the first tag literally named `Input`, or the empty string. -/
def get_input_from_interaction (interaction_tx : GQLNodeInterface) : String :=
  match interaction_tx.tags.find? (fun data => data.name = "Input") with
  | some data => data.value
  | none => ""

/-- `has_multiple_interactions` (executor lines 225–233): more than one
tag named `Contract`. -/
def has_multiple_interactions (interaction_tx : GQLNodeInterface) : Bool :=
  (interaction_tx.tags.filter (fun data => data.name = "Contract")).length > 1

/-- Byte view of a string: the code point of each character.  Exact for
the ASCII identifiers (base64url block and transaction ids, decimal
digits) the ledger uses. -/
def strBytes (s : String) : List Nat :=
  s.data.map (fun c => c.toNat)

/-- Byte-wise three-way comparison of byte strings (Rust `Ord` on
`String` compares the underlying bytes lexicographically). -/
def lexCmp : List Nat → List Nat → Ordering
  | [], [] => Ordering.eq
  | [], _ :: _ => Ordering.lt
  | _ :: _, [] => Ordering.gt
  | a :: as, b :: bs =>
      if a < b then Ordering.lt
      else if b < a then Ordering.gt
      else lexCmp as bs

/-- Fixed-width decimal encoding of a number, most significant digit
first, left-padded with `0` digits; entries are the byte values of the
digit characters. -/
def padDecimal : Nat → Nat → List Nat
  | 0, _ => []
  | w + 1, h => (h / 10 ^ w % 10 + 48) :: padDecimal w (h % 10 ^ w)

/-- Width of the height field of a sort key. -/
def heightWidth : Nat := 12

/-- Modelled from the spec:
`three_em_arweave::miscellaneous::get_sort_key` is not under `src/`.
Spec §4.3: the key concatenates a fixed-width decimal encoding of the
height (left-padded to a uniform width), the block id and the
transaction id, separated by non-printing delimiters that cannot occur
inside the fields; comparison is byte-wise.  The delimiter is the NUL
byte and the pad width is 12 digits. -/
def get_sort_key (height : Nat) (blockId : String) (txId : String) : List Nat :=
  padDecimal heightWidth height ++ 0 :: strBytes blockId ++ 0 :: strBytes txId

/-- The sort key of one interaction edge (executor lines 60–63). -/
def edgeKey (e : GQLEdgeInterface) : List Nat :=
  get_sort_key e.node.block.height e.node.block.id e.node.id

/-- The comparator of executor lines 59–65 (`a_sort_key.cmp(&b_sort_key)`),
as the boolean `≤` used for sorting. -/
def edgeLE (a b : GQLEdgeInterface) : Bool :=
  lexCmp (edgeKey a) (edgeKey b) ≠ Ordering.gt

/-- `interactions.sort_by(...)` (executor lines 59–65): Rust `sort_by`
is a stable merge sort, ascending in the comparator. -/
def sortedInteractions (l : List GQLEdgeInterface) : List GQLEdgeInterface :=
  l.mergeSort edgeLE

/-- Reference lexicographic comparison of the triple
(block height, block id, transaction id): height first, then block id,
then transaction id, the strings byte-wise. -/
def tripleCmp (a b : Nat × String × String) : Ordering :=
  (compare a.1 b.1).then
    ((lexCmp (strBytes a.2.1) (strBytes b.2.1)).then
      (lexCmp (strBytes a.2.2) (strBytes b.2.2)))

/-- The sort-key data of an edge. -/
def edgeTriple (e : GQLEdgeInterface) : Nat × String × String :=
  (e.node.block.height, e.node.block.id, e.node.id)

/-- ASCII fields: every byte is positive, so the NUL delimiter cannot
occur inside them, and the height fits the padded width. -/
def GoodEdge (e : GQLEdgeInterface) : Prop :=
  e.node.block.height < 10 ^ heightWidth ∧
    (∀ c ∈ strBytes e.node.block.id, 0 < c) ∧
    (∀ c ∈ strBytes e.node.id, 0 < c)

instance (e : GQLEdgeInterface) : Decidable (GoodEdge e) := by
  unfold GoodEdge
  infer_instance

/-- The result sum of the executor (lines 25–28): one variant `V8` used
for both JavaScript and WebAssembly results, and a dead `Evm` variant. -/
inductive ExecuteResult where
  | V8 (state : Json) (validity : ValidityMap) : ExecuteResult
  | Evm (bytes : List Nat) (validity : ValidityMap) : ExecuteResult

/-- Environment of external collaborators of the executor.  Modelled
from the spec: the ledger client (§4.1), the cache (§4.4), the JSON
codec and the two runtimes (§4.5–4.7) are not under `src/`.  A `none`
of a fallible field is the failure the executor `unwrap`s. -/
structure ExecEnv where
  /-- `arweave.load_contract` (fatal failures propagate as panics). -/
  loadContract : Option LoadedContract
  /-- `arweave.get_interactions`: the fetched (unsorted) interaction
  list, `new_interaction_index` and `are_there_new_interactions`. -/
  interactionsFetch : Option (List GQLEdgeInterface × Nat × Bool)
  /-- `ARWEAVE_CACHE.find_state`. -/
  findState : Option CachedState
  /-- `String::from_utf8` of the contract source bytes. -/
  utf8Decode : List Nat → Option String
  /-- `serde_json::from_str`. -/
  jsonParse : String → Option Json
  /-- `Value::to_string`. -/
  jsonSerialize : Json → String
  /-- `serde_json::to_vec`. -/
  jsonToBytes : Json → List Nat
  /-- `serde_json::from_slice`. -/
  bytesParse : List Nat → Option Json
  /-- Whether `Runtime::new(source, state, info)` succeeds. -/
  jsNew : String → Json → ContractInfo → Bool
  /-- `rt.call` of the JavaScript runtime: spec §4.6, the handler maps
  the current state and the call input to a new state, or fails leaving
  the state untouched. -/
  jsCall : String → ContractInfo → Json → Json → Option Json
  /-- Whether `WasmRuntime::new(wasm, info)` succeeds. -/
  wasmNew : List Nat → ContractInfo → Bool
  /-- `rt.call` of the WebAssembly runtime: spec §4.7, the handler maps
  the state buffer and the input buffer to a new state buffer, or
  fails; the prior buffer is retained on failure. -/
  wasmCall : List Nat → ContractInfo → List Nat → List Nat → Option (List Nat)

/-- The ledger context constructed by the executor (lines 83–90): the
loaded contract's transaction together with an all-default block. -/
def contractInfoOf (loaded : LoadedContract) : ContractInfo :=
  { transaction := loaded.contract_transaction
    block := { height := 0, indep_hash := "", timestamp := "" } }

/-- The call input of one interaction (lines 136–139 and 182–185):
`{ "input": <decoded input>, "caller": <owner address> }`. -/
def callInputOf (inputJson : Json) (tx : GQLNodeInterface) : Json :=
  Json.obj [("input", inputJson), ("caller", Json.str tx.owner.address)]

/-- One iteration of the JavaScript loop (lines 128–143): decode the
`Input` tag (`unwrap` panics on malformed JSON), call the runtime, and
report validity; the runtime state advances only on success. -/
def jsStep (env : ExecEnv) (src : String) (info : ContractInfo)
    (st : Json) (tx : GQLNodeInterface) : Option (Bool × Json) :=
  match env.jsonParse (get_input_from_interaction tx) with
  | none => none
  | some jsInput =>
      match env.jsCall src info st (callInputOf jsInput tx) with
      | some st' => some (true, st')
      | none => some (false, st)

/-- One iteration of the WebAssembly loop (lines 177–194): decode the
`Input` tag (`unwrap` panics on malformed JSON), serialize the call
input, call the runtime; the state buffer is reassigned only on
success. -/
def wasmStep (env : ExecEnv) (wasmSrc : List Nat) (info : ContractInfo)
    (st : List Nat) (tx : GQLNodeInterface) : Option (Bool × List Nat) :=
  match env.jsonParse (get_input_from_interaction tx) with
  | none => none
  | some wasmInput =>
      match env.wasmCall wasmSrc info st (env.jsonToBytes (callInputOf wasmInput tx)) with
      | some st' => some (true, st')
      | none => some (false, st)

/-- The interaction fold shared by both branches: thread the state,
record each interaction's validity under its transaction id.  A `none`
step is a panic and aborts the whole replay. -/
def applyFold {σ : Type} (stp : σ → GQLNodeInterface → Option (Bool × σ)) :
    σ → ValidityMap → List GQLEdgeInterface → Option (σ × ValidityMap)
  | st, v, [] => some (st, v)
  | st, v, e :: es =>
      match stp st e.node with
      | none => none
      | some (ok, st') => applyFold stp st' (mapInsert v e.node.id ok) es

/-- The per-interaction results of a fold, in application order: each
processed interaction paired with the validity of its application. -/
def stepResults {σ : Type} (stp : σ → GQLNodeInterface → Option (Bool × σ)) :
    σ → List GQLEdgeInterface → List (String × Bool)
  | _, [] => []
  | st, e :: es =>
      match stp st e.node with
      | none => []
      | some (ok, st') => (e.node.id, ok) :: stepResults stp st' es

/-- The interaction suffix selection (lines 124–126 and 173–175):
`interactions[new_interaction_index..]` when the cache resumes an
existing entry with new interactions, the whole list otherwise.  Rust
range indexing panics when the start exceeds the length. -/
def chooseApplied (cache isCachePresent areNew : Bool) (newIdx : Nat)
    (interactions : List GQLEdgeInterface) : Option (List GQLEdgeInterface) :=
  if cache && isCachePresent && areNew then
    if newIdx ≤ interactions.length then some (interactions.drop newIdx) else none
  else
    some interactions

/-- `execute_contract` (executor lines 30–211).  The two ledger fetches
are joined (either failure panics, the contract's first), interactions
are sorted, the cache is consulted when enabled, and the matching
branch of the contract type runs the interaction fold. -/
def execute_contract (env : ExecEnv) (cache : Bool) : Option ExecuteResult :=
  match env.loadContract with
  | none => none
  | some loaded =>
    match env.interactionsFetch with
    | none => none
    | some (fetched, newIdx, areNew) =>
      let interactions := sortedInteractions fetched
      let cacheState : Option CachedState := if cache then env.findState else none
      let validity0 : ValidityMap :=
        match cacheState with
        | some cs => cs.validity
        | none => []
      let state0? : Option Json :=
        match cacheState with
        | some cs => some cs.state
        | none => none
      let needsProcessing : Bool :=
        match cacheState with
        | some _ => areNew
        | none => true
      let isCachePresent : Bool := state0?.isSome
      let info := contractInfoOf loaded
      match loaded.contract_type with
      | ContractType.JAVASCRIPT =>
        if needsProcessing then
          match
            (match state0? with
              | some s => some s
              | none => env.jsonParse loaded.init_state) with
          | none => none
          | some st0 =>
            match env.utf8Decode loaded.contract_src with
            | none => none
            | some src =>
              if env.jsNew src st0 info then
                match chooseApplied cache isCachePresent areNew newIdx interactions with
                | none => none
                | some applied =>
                  match applyFold (jsStep env src info) st0 validity0 applied with
                  | none => none
                  | some (st, v) => some (ExecuteResult.V8 st v)
              else none
        else
          match state0? with
          | none => none
          | some s => some (ExecuteResult.V8 s validity0)
      | ContractType.WASM =>
        if needsProcessing then
          let initBytes : List Nat :=
            match state0? with
            | some s => strBytes (env.jsonSerialize s)
            | none => strBytes loaded.init_state
          if env.wasmNew loaded.contract_src info then
            match chooseApplied cache isCachePresent areNew newIdx interactions with
            | none => none
            | some applied =>
              match applyFold (wasmStep env loaded.contract_src info) initBytes validity0 applied with
              | none => none
              | some (st, v) =>
                match env.bytesParse st with
                | none => none
                | some stateVal => some (ExecuteResult.V8 stateVal v)
          else none
        else
          match state0? with
          | none => none
          | some s => some (ExecuteResult.V8 s validity0)
      | ContractType.EVM => some (ExecuteResult.V8 Json.null validity0)

/-! ### Concrete environments and interactions used by witnesses and counterexamples -/

/-- Environment of the concrete runs used by witnesses: JSON parsing
succeeds on every input (the empty input decodes to `null`, any other
to the corresponding string), and the JavaScript handler accepts
exactly the calls whose decoded input is `null`. -/
def sampleEnv : ExecEnv where
  loadContract := none
  interactionsFetch := none
  findState := none
  utf8Decode := fun _ => some "src"
  jsonParse := fun s => if s = "" then some Json.null else some (Json.str s)
  jsonSerialize := fun _ => ""
  jsonToBytes := fun _ => []
  bytesParse := fun _ => some Json.null
  jsNew := fun _ _ _ => true
  jsCall := fun _ _ st inp =>
    match inp with
    | Json.obj (("input", Json.null) :: _) => some st
    | _ => none
  wasmNew := fun _ _ => true
  wasmCall := fun _ _ st _ => some st

/-- An interaction with no `Input` tag (its application succeeds under
`sampleEnv`). -/
def sampleOkEdge : GQLEdgeInterface :=
  ⟨⟨"tx1", ⟨"owner"⟩, [], ⟨1, "blockA", "ts"⟩⟩⟩

/-- An interaction whose `Input` tag decodes to a non-`null` value (its
application fails under `sampleEnv`). -/
def sampleBadEdge : GQLEdgeInterface :=
  ⟨⟨"tx2", ⟨"owner"⟩, [⟨"Input", "bad"⟩], ⟨2, "blockA", "ts"⟩⟩⟩

/-- The JavaScript step function of the concrete runs. -/
def sampleStep : Json → GQLNodeInterface → Option (Bool × Json) :=
  jsStep sampleEnv "src" (contractInfoOf ⟨⟨"c"⟩, ContractType.JAVASCRIPT, [], "{}"⟩)

/-- A JavaScript contract with init state `{}`. -/
def strictContract : LoadedContract :=
  ⟨⟨"c"⟩, ContractType.JAVASCRIPT, [], "{}"⟩

/-- A concrete environment with a strict JSON decoder: `{}` decodes to
the empty object, the empty string to `null`, and anything else fails
to parse; the JavaScript handler accepts every call. -/
def strictEnvOf (interactions : List GQLEdgeInterface) : ExecEnv where
  loadContract := some strictContract
  interactionsFetch := some (interactions, 0, false)
  findState := none
  utf8Decode := fun _ => some "src"
  jsonParse := fun s =>
    if s = "{}" then some (Json.obj [])
    else if s = "" then some Json.null
    else none
  jsonSerialize := fun _ => "{}"
  jsonToBytes := fun _ => []
  bytesParse := fun _ => some (Json.obj [])
  jsNew := fun _ _ _ => true
  jsCall := fun _ _ st _ => some st
  wasmNew := fun _ _ => true
  wasmCall := fun _ _ st _ => some st

/-- An interaction with no `Input` tag, first in sort order. -/
def strictPlainEdge1 : GQLEdgeInterface := ⟨⟨"p1", ⟨"o"⟩, [], ⟨1, "a", "ts"⟩⟩⟩

/-- An interaction with no `Input` tag, second in sort order. -/
def strictPlainEdge2 : GQLEdgeInterface := ⟨⟨"p2", ⟨"o"⟩, [], ⟨2, "a", "ts"⟩⟩⟩

/-- An interaction with the unparsable `Input` value `bad`, first in
sort order. -/
def strictBadEdge1 : GQLEdgeInterface :=
  ⟨⟨"p1", ⟨"o"⟩, [⟨"Input", "bad"⟩], ⟨1, "a", "ts"⟩⟩⟩

/-- An interaction with the unparsable `Input` value `bad`, second in
sort order. -/
def strictBadEdge2 : GQLEdgeInterface :=
  ⟨⟨"p2", ⟨"o"⟩, [⟨"Input", "bad"⟩], ⟨2, "a", "ts"⟩⟩⟩

/-- The canonical-order seed of the spec (§8, scenario 4): heights
`[10, 10, 11]`, block ids `["b", "a", "a"]`, tx ids `["t2", "t1", "t0"]`. -/
def c1Edge1 : GQLEdgeInterface := ⟨⟨"t2", ⟨"o"⟩, [], ⟨10, "b", "ts"⟩⟩⟩

/-- Second canonical-order seed interaction. -/
def c1Edge2 : GQLEdgeInterface := ⟨⟨"t1", ⟨"o"⟩, [], ⟨10, "a", "ts"⟩⟩⟩

/-- Third canonical-order seed interaction. -/
def c1Edge3 : GQLEdgeInterface := ⟨⟨"t0", ⟨"o"⟩, [], ⟨11, "a", "ts"⟩⟩⟩

/-- The EVM contract of the cache counterexample. -/
def evmContract : LoadedContract := ⟨⟨"c"⟩, ContractType.EVM, [], "{}"⟩

/-- An environment holding a cached state for an EVM contract, with no
new interactions. -/
def evmCachedEnv : ExecEnv :=
  { strictEnvOf [] with
    loadContract := some evmContract
    findState := some ⟨Json.str "cached", [("t", true)]⟩ }

/-- The WebAssembly contract of the variant counterexample. -/
def wasmContract : LoadedContract := ⟨⟨"c"⟩, ContractType.WASM, [], "{}"⟩

/-- The variant counterexample environment for the WebAssembly run. -/
def wasmVariantEnv : ExecEnv :=
  { strictEnvOf [] with loadContract := some wasmContract }

/-! ### Byte-wise comparison lemmas -/

theorem lexCmp_eq_iff : ∀ {x y : List Nat}, lexCmp x y = Ordering.eq ↔ x = y := by
  intro x
  induction x with
  | nil =>
    intro y
    cases y <;> simp [lexCmp]
  | cons a as ih =>
    intro y
    cases y with
    | nil => simp [lexCmp]
    | cons b bs =>
      rcases Nat.lt_trichotomy a b with h | h | h
      · rw [show lexCmp (a :: as) (b :: bs) = Ordering.lt from by
          simp [lexCmp, h]]
        constructor
        · intro hq
          exact Ordering.noConfusion hq
        · intro hq
          cases hq
          exact absurd h (Nat.lt_irrefl a)
      · subst h
        rw [show lexCmp (a :: as) (a :: bs) = lexCmp as bs from by
          simp [lexCmp]]
        simp [ih]
      · rw [show lexCmp (a :: as) (b :: bs) = Ordering.gt from by
          simp [lexCmp, h, Nat.lt_asymm h]]
        constructor
        · intro hq
          exact Ordering.noConfusion hq
        · intro hq
          cases hq
          exact absurd h (Nat.lt_irrefl a)

theorem lexCmp_swap : ∀ (x y : List Nat), lexCmp y x = (lexCmp x y).swap := by
  intro x
  induction x with
  | nil =>
    intro y
    cases y <;> rfl
  | cons a as ih =>
    intro y
    cases y with
    | nil => rfl
    | cons b bs =>
      rcases Nat.lt_trichotomy a b with h | h | h
      · rw [show lexCmp (a :: as) (b :: bs) = Ordering.lt from by simp [lexCmp, h]]
        simp [lexCmp, h, Nat.lt_asymm h, Ordering.swap]
      · subst h
        rw [show lexCmp (a :: as) (a :: bs) = lexCmp as bs from by simp [lexCmp]]
        rw [show lexCmp (a :: bs) (a :: as) = lexCmp bs as from by simp [lexCmp]]
        exact ih bs
      · rw [show lexCmp (a :: as) (b :: bs) = Ordering.gt from by
          simp [lexCmp, h, Nat.lt_asymm h]]
        simp [lexCmp, h, Nat.lt_asymm h, Ordering.swap]

theorem lexCmp_lt_trans : ∀ {x y z : List Nat}, lexCmp x y = Ordering.lt →
    lexCmp y z = Ordering.lt → lexCmp x z = Ordering.lt := by
  intro x
  induction x with
  | nil =>
    intro y z hxy hyz
    cases y with
    | nil => exact hyz
    | cons b bs =>
      cases z with
      | nil => simp [lexCmp] at hyz
      | cons c cs => rfl
  | cons a as ih =>
    intro y z hxy hyz
    cases y with
    | nil => simp [lexCmp] at hxy
    | cons b bs =>
      cases z with
      | nil => simp [lexCmp] at hyz
      | cons c cs =>
        simp only [lexCmp] at hxy hyz ⊢
        by_cases hab : a < b
        · by_cases hbc : b < c
          · rw [if_pos (Nat.lt_trans hab hbc)]
          · by_cases hcb : c < b
            · rw [if_neg hbc, if_pos hcb] at hyz
              exact absurd hyz (by simp)
            · have : b = c := Nat.le_antisymm (Nat.le_of_not_lt hcb) (Nat.le_of_not_lt hbc)
              subst this
              rw [if_pos hab]
        · by_cases hba : b < a
          · rw [if_neg hab, if_pos hba] at hxy
            exact absurd hxy (by simp)
          · have hab' : a = b := Nat.le_antisymm (Nat.le_of_not_lt hba) (Nat.le_of_not_lt hab)
            subst hab'
            rw [if_neg (Nat.lt_irrefl a), if_neg (Nat.lt_irrefl a)] at hxy
            by_cases hac : a < c
            · rw [if_pos hac]
            · by_cases hca : c < a
              · rw [if_neg hac, if_pos hca] at hyz
                exact absurd hyz (by simp)
              · have : a = c := Nat.le_antisymm (Nat.le_of_not_lt hca) (Nat.le_of_not_lt hac)
                subst this
                rw [if_neg (Nat.lt_irrefl a), if_neg (Nat.lt_irrefl a)] at hyz ⊢
                exact ih hxy hyz

theorem edgeLE_total (a b : GQLEdgeInterface) : edgeLE a b = true ∨ edgeLE b a = true := by
  unfold edgeLE
  rw [lexCmp_swap (edgeKey a) (edgeKey b)]
  cases lexCmp (edgeKey a) (edgeKey b) <;> simp [Ordering.swap]

theorem edgeLE_trans (a b c : GQLEdgeInterface) (hab : edgeLE a b = true)
    (hbc : edgeLE b c = true) : edgeLE a c = true := by
  unfold edgeLE at hab hbc ⊢
  simp only [ne_eq, decide_not, Bool.not_eq_true', decide_eq_false_iff_not] at hab hbc ⊢
  cases h1 : lexCmp (edgeKey a) (edgeKey b) with
  | eq =>
    rw [lexCmp_eq_iff.mp h1]
    exact hbc
  | gt => exact absurd h1 hab
  | lt =>
    cases h2 : lexCmp (edgeKey b) (edgeKey c) with
    | eq =>
      rw [← lexCmp_eq_iff.mp h2]
      exact fun hq => hab (h1 ▸ hq)
    | gt => exact absurd h2 hbc
    | lt =>
      rw [lexCmp_lt_trans h1 h2]
      simp

theorem lexCmp_append_of_length {xs ys : List Nat} (X Y : List Nat)
    (h : xs.length = ys.length) :
    lexCmp (xs ++ X) (ys ++ Y) = (lexCmp xs ys).then (lexCmp X Y) := by
  induction xs generalizing ys with
  | nil =>
    cases ys with
    | nil => rfl
    | cons b bs => exact absurd h (by simp)
  | cons a as ih =>
    cases ys with
    | nil => exact absurd h (by simp)
    | cons b bs =>
      simp only [List.cons_append, lexCmp]
      by_cases hab : a < b
      · rw [if_pos hab, if_pos hab]
        rfl
      · by_cases hba : b < a
        · rw [if_neg hab, if_pos hba, if_neg hab, if_pos hba]
          rfl
        · rw [if_neg hab, if_neg hba, if_neg hab, if_neg hba]
          exact ih (by simpa using h)

theorem padDecimal_length (w h : Nat) : (padDecimal w h).length = w := by
  induction w generalizing h with
  | zero => rfl
  | succ w ih => simp [padDecimal, ih]

theorem padDecimal_cmp : ∀ (w : Nat) {a b : Nat}, a < 10 ^ w → b < 10 ^ w →
    lexCmp (padDecimal w a) (padDecimal w b) = compare a b := by
  intro w
  induction w with
  | zero =>
    intro a b ha hb
    have ha' : a = 0 := Nat.lt_one_iff.mp ha
    have hb' : b = 0 := Nat.lt_one_iff.mp hb
    subst ha'
    subst hb'
    rfl
  | succ w ih =>
    intro a b ha hb
    have hda : a / 10 ^ w < 10 := by
      apply Nat.div_lt_of_lt_mul
      rw [← pow_succ]
      exact ha
    have hdb : b / 10 ^ w < 10 := by
      apply Nat.div_lt_of_lt_mul
      rw [← pow_succ]
      exact hb
    have hma : a / 10 ^ w % 10 = a / 10 ^ w := Nat.mod_eq_of_lt hda
    have hmb : b / 10 ^ w % 10 = b / 10 ^ w := Nat.mod_eq_of_lt hdb
    have hpow : 0 < 10 ^ w := by positivity
    have hra : a % 10 ^ w < 10 ^ w := Nat.mod_lt a hpow
    have hrb : b % 10 ^ w < 10 ^ w := Nat.mod_lt b hpow
    have hsa := Nat.div_add_mod a (10 ^ w)
    have hsb := Nat.div_add_mod b (10 ^ w)
    simp only [padDecimal, lexCmp, hma, hmb]
    by_cases hd : a / 10 ^ w < b / 10 ^ w
    · rw [if_pos (by omega)]
      have hab : a < b := by
        have h1 : a < 10 ^ w * (a / 10 ^ w) + 10 ^ w := by omega
        have h2 : 10 ^ w * (a / 10 ^ w) + 10 ^ w = 10 ^ w * (a / 10 ^ w + 1) := by ring
        have h3 : 10 ^ w * (a / 10 ^ w + 1) ≤ 10 ^ w * (b / 10 ^ w) :=
          Nat.mul_le_mul_left _ hd
        omega
      exact (Nat.compare_eq_lt.mpr hab).symm
    · by_cases hd' : b / 10 ^ w < a / 10 ^ w
      · rw [if_neg (by omega), if_pos (by omega)]
        have hab : b < a := by
          have h1 : b < 10 ^ w * (b / 10 ^ w) + 10 ^ w := by omega
          have h2 : 10 ^ w * (b / 10 ^ w) + 10 ^ w = 10 ^ w * (b / 10 ^ w + 1) := by ring
          have h3 : 10 ^ w * (b / 10 ^ w + 1) ≤ 10 ^ w * (a / 10 ^ w) :=
            Nat.mul_le_mul_left _ hd'
          omega
        exact (Nat.compare_eq_gt.mpr hab).symm
      · have hdd : a / 10 ^ w = b / 10 ^ w := by omega
        have hgh : 10 ^ w * (a / 10 ^ w) = 10 ^ w * (b / 10 ^ w) := by rw [hdd]
        rw [if_neg (by omega), if_neg (by omega)]
        rw [ih hra hrb]
        rcases Nat.lt_trichotomy (a % 10 ^ w) (b % 10 ^ w) with hm | hm | hm
        · rw [Nat.compare_eq_lt.mpr hm, (Nat.compare_eq_lt.mpr (by omega) : compare a b = Ordering.lt)]
        · rw [Nat.compare_eq_eq.mpr hm, (Nat.compare_eq_eq.mpr (by omega) : compare a b = Ordering.eq)]
        · rw [Nat.compare_eq_gt.mpr hm, (Nat.compare_eq_gt.mpr (by omega) : compare a b = Ordering.gt)]

theorem lexCmp_delim : ∀ (B₁ B₂ T₁ T₂ : List Nat), (∀ c ∈ B₁, 0 < c) → (∀ c ∈ B₂, 0 < c) →
    lexCmp (B₁ ++ 0 :: T₁) (B₂ ++ 0 :: T₂) = (lexCmp B₁ B₂).then (lexCmp T₁ T₂) := by
  intro B₁
  induction B₁ with
  | nil =>
    intro B₂ T₁ T₂ _ h₂
    cases B₂ with
    | nil => rfl
    | cons b bs =>
      have hb : 0 < b := h₂ b (List.mem_cons_self b bs)
      simp only [List.nil_append, List.cons_append, lexCmp]
      rw [if_pos hb]
      rfl
  | cons a as ih =>
    intro B₂ T₁ T₂ h₁ h₂
    cases B₂ with
    | nil =>
      have ha : 0 < a := h₁ a (List.mem_cons_self a as)
      simp only [List.nil_append, List.cons_append, lexCmp]
      rw [if_neg (by omega), if_pos ha]
      rfl
    | cons b bs =>
      simp only [List.cons_append, lexCmp]
      by_cases hab : a < b
      · rw [if_pos hab, if_pos hab]
        rfl
      · by_cases hba : b < a
        · rw [if_neg hab, if_pos hba, if_neg hab, if_pos hba]
          rfl
        · rw [if_neg hab, if_neg hba, if_neg hab, if_neg hba]
          exact ih bs T₁ T₂ (fun c hc => h₁ c (List.mem_cons_of_mem a hc))
            (fun c hc => h₂ c (List.mem_cons_of_mem b hc))

theorem edgeKey_cmp {a b : GQLEdgeInterface} (ha : GoodEdge a) (hb : GoodEdge b) :
    lexCmp (edgeKey a) (edgeKey b) = tripleCmp (edgeTriple a) (edgeTriple b) := by
  obtain ⟨ha1, ha2, ha3⟩ := ha
  obtain ⟨hb1, hb2, hb3⟩ := hb
  unfold edgeKey get_sort_key tripleCmp edgeTriple
  rw [List.append_assoc, List.append_assoc, List.cons_append, List.cons_append]
  rw [lexCmp_append_of_length _ _ (by rw [padDecimal_length, padDecimal_length])]
  rw [padDecimal_cmp heightWidth ha1 hb1]
  have hdelim : lexCmp (0 :: (strBytes a.node.block.id ++ 0 :: strBytes a.node.id))
      (0 :: (strBytes b.node.block.id ++ 0 :: strBytes b.node.id))
      = (lexCmp (strBytes a.node.block.id) (strBytes b.node.block.id)).then
          (lexCmp (strBytes a.node.id) (strBytes b.node.id)) := by
    rw [show lexCmp (0 :: (strBytes a.node.block.id ++ 0 :: strBytes a.node.id))
        (0 :: (strBytes b.node.block.id ++ 0 :: strBytes b.node.id))
        = lexCmp (strBytes a.node.block.id ++ 0 :: strBytes a.node.id)
            (strBytes b.node.block.id ++ 0 :: strBytes b.node.id) from by
      simp [lexCmp]]
    exact lexCmp_delim _ _ _ _ ha2 hb2
  rw [hdelim]

/-! ### Association-list lemmas for the validity table -/

theorem countKey_mapInsert_self (m : ValidityMap) (k : String) (b : Bool) :
    countKey (mapInsert m k b) k = 1 := by
  unfold countKey mapInsert
  rw [List.filter_append]
  have h1 : (List.filter (fun p => p.1 = k) (List.filter (fun p => (p.1 ≠ k : Bool)) m)) = [] := by
    rw [List.filter_eq_nil_iff]
    intro p hp
    have := (List.mem_filter.mp hp).2
    simpa using this
  rw [h1]
  simp

theorem filter_key_of_filter_ne (m : ValidityMap) (k k' : String) (hkk : k' ≠ k) :
    List.filter (fun p => (p.1 = k : Bool)) (List.filter (fun p => (p.1 ≠ k' : Bool)) m)
      = List.filter (fun p => (p.1 = k : Bool)) m := by
  induction m with
  | nil => rfl
  | cons p ps ih =>
    by_cases hq : p.1 = k'
    · have hN : (decide (p.1 ≠ k')) = false := by
        simp [hq]
      have hK : (decide (p.1 = k)) = false := by
        rw [hq]
        simp [hkk]
      simp only [List.filter_cons, hN, hK, Bool.false_eq_true, if_false]
      exact ih
    · have hN : (decide (p.1 ≠ k')) = true := by
        simpa using hq
      by_cases hp : p.1 = k
      · have hK : (decide (p.1 = k)) = true := by
          simpa using hp
        simp only [List.filter_cons, hN, hK, if_true]
        rw [ih]
      · have hK : (decide (p.1 = k)) = false := by
          simpa using hp
        simp only [List.filter_cons, hN, hK, Bool.false_eq_true, if_false, if_true]
        exact ih

theorem countKey_mapInsert_other (m : ValidityMap) (k k' : String) (b : Bool)
    (hkk : k' ≠ k) : countKey (mapInsert m k' b) k = countKey m k := by
  unfold countKey mapInsert
  rw [List.filter_append, filter_key_of_filter_ne m k k' hkk]
  have h2 : (List.filter (fun p => p.1 = k) ([(k', b)] : ValidityMap)) = [] := by
    simp [hkk]
  rw [h2, List.append_nil]

theorem mapFind_mapInsert_self (m : ValidityMap) (k : String) (b : Bool) :
    mapFind (mapInsert m k b) k = some b := by
  unfold mapFind mapInsert
  have h1 : List.find? (fun p => (p.1 = k : Bool)) (List.filter (fun p => (p.1 ≠ k : Bool)) m) = none := by
    rw [List.find?_eq_none]
    intro p hp
    have := (List.mem_filter.mp hp).2
    simpa using this
  rw [List.find?_append, h1]
  simp

theorem mapFind_mapInsert_other (m : ValidityMap) (k k' : String) (b : Bool)
    (hkk : k' ≠ k) : mapFind (mapInsert m k' b) k = mapFind m k := by
  unfold mapFind mapInsert
  rw [List.find?_append]
  have h2 : List.find? (fun p => (p.1 = k : Bool)) ([(k', b)] : ValidityMap) = none := by
    simp [hkk]
  rw [h2]
  have h3 : List.find? (fun p => (p.1 = k : Bool)) (List.filter (fun p => (p.1 ≠ k' : Bool)) m)
      = List.find? (fun p => (p.1 = k : Bool)) m := by
    induction m with
    | nil => rfl
    | cons p ps ih =>
      by_cases hq : p.1 = k'
      · have hN : (decide (p.1 ≠ k')) = false := by
          simp [hq]
        have hK : (decide (p.1 = k)) = false := by
          rw [hq]
          simp [hkk]
        simp only [List.filter_cons, hN, Bool.false_eq_true, if_false, List.find?_cons, hK]
        exact ih
      · have hN : (decide (p.1 ≠ k')) = true := by
          simpa using hq
        by_cases hp : p.1 = k
        · have hK : (decide (p.1 = k)) = true := by
            simpa using hp
          simp only [List.filter_cons, hN, if_true, List.find?_cons, hK]
        · have hK : (decide (p.1 = k)) = false := by
            simpa using hp
          simp only [List.filter_cons, hN, if_true, List.find?_cons, hK]
          exact ih
  rw [h3]
  cases List.find? (fun p => (p.1 = k : Bool)) m <;> rfl

/-! ### Interaction-fold lemmas -/

theorem applyFold_append {σ : Type} (stp : σ → GQLNodeInterface → Option (Bool × σ))
    (st : σ) (v : ValidityMap) (l₁ l₂ : List GQLEdgeInterface) :
    applyFold stp st v (l₁ ++ l₂) =
      match applyFold stp st v l₁ with
      | none => none
      | some (st', v') => applyFold stp st' v' l₂ := by
  induction l₁ generalizing st v with
  | nil => simp [applyFold]
  | cons e es ih =>
    simp only [List.cons_append, applyFold]
    cases stp st e.node with
    | none => rfl
    | some p => exact ih p.2 (mapInsert v e.node.id p.1)

theorem applyFold_validity_eq {σ : Type} (stp : σ → GQLNodeInterface → Option (Bool × σ)) :
    ∀ (l : List GQLEdgeInterface) (st : σ) (v : ValidityMap) (out : σ × ValidityMap),
      applyFold stp st v l = some out →
      out.2 = (stepResults stp st l).foldl (fun m p => mapInsert m p.1 p.2) v := by
  intro l
  induction l with
  | nil =>
    intro st v out h
    simp [applyFold] at h
    simp [stepResults, ← h]
  | cons e es ih =>
    intro st v out h
    simp only [applyFold] at h
    cases hstep : stp st e.node with
    | none => rw [hstep] at h; exact absurd h (by simp)
    | some p =>
      rw [hstep] at h
      have := ih p.2 (mapInsert v e.node.id p.1) out h
      simpa [stepResults, hstep] using this

theorem stepResults_map_fst {σ : Type} (stp : σ → GQLNodeInterface → Option (Bool × σ)) :
    ∀ (l : List GQLEdgeInterface) (st : σ) (v : ValidityMap) (out : σ × ValidityMap),
      applyFold stp st v l = some out →
      (stepResults stp st l).map Prod.fst = l.map (fun e => e.node.id) := by
  intro l
  induction l with
  | nil =>
    intro st v out _
    rfl
  | cons e es ih =>
    intro st v out h
    simp only [applyFold] at h
    cases hstep : stp st e.node with
    | none => rw [hstep] at h; exact absurd h (by simp)
    | some p =>
      rw [hstep] at h
      have := ih p.2 (mapInsert v e.node.id p.1) out h
      simp [stepResults, hstep, this]

theorem foldl_mapInsert_preserve (ps : List (String × Bool)) :
    ∀ (m : ValidityMap) (k : String), k ∉ ps.map Prod.fst →
      mapFind (ps.foldl (fun m p => mapInsert m p.1 p.2) m) k = mapFind m k ∧
      countKey (ps.foldl (fun m p => mapInsert m p.1 p.2) m) k = countKey m k := by
  induction ps with
  | nil =>
    intro m k _
    exact ⟨rfl, rfl⟩
  | cons q qs ih =>
    intro m k hk
    simp only [List.map_cons, List.mem_cons] at hk
    push_neg at hk
    obtain ⟨hk1, hk2⟩ := hk
    simp only [List.foldl_cons]
    have := ih (mapInsert m q.1 q.2) k hk2
    rw [this.1, this.2, mapFind_mapInsert_other m k q.1 q.2 (fun h => hk1 h.symm),
      countKey_mapInsert_other m k q.1 q.2 (fun h => hk1 h.symm)]
    exact ⟨rfl, rfl⟩

theorem foldl_mapInsert_spec (ps : List (String × Bool)) :
    ∀ (m : ValidityMap), (ps.map Prod.fst).Nodup →
      ∀ p ∈ ps, mapFind (ps.foldl (fun m p => mapInsert m p.1 p.2) m) p.1 = some p.2 ∧
        countKey (ps.foldl (fun m p => mapInsert m p.1 p.2) m) p.1 = 1 := by
  induction ps with
  | nil =>
    intro m _ p hp
    exact absurd hp (List.not_mem_nil p)
  | cons q qs ih =>
    intro m hnodup p hp
    simp only [List.map_cons, List.nodup_cons] at hnodup
    obtain ⟨hq, hqs⟩ := hnodup
    rcases List.mem_cons.mp hp with hpq | hpqs
    · subst hpq
      simp only [List.foldl_cons]
      have := foldl_mapInsert_preserve qs (mapInsert m p.1 p.2) p.1 hq
      rw [this.1, this.2, mapFind_mapInsert_self, countKey_mapInsert_self]
      exact ⟨rfl, rfl⟩
    · simp only [List.foldl_cons]
      exact ih (mapInsert m q.1 q.2) hqs p hpqs

/-! ### Claim theorems: the interaction loop -/

/-- C8: every interaction processed by the fold of `execute_contract`
appears in the resulting validity table exactly once, bound to the
boolean validity of its own application (assuming the processed
transaction ids are distinct, which the content-addressed ledger
guarantees); the table holds nothing but booleans by its type. -/
theorem C8_validity_exactly_once {σ : Type}
    (stp : σ → GQLNodeInterface → Option (Bool × σ))
    (l : List GQLEdgeInterface) (st : σ) (v : ValidityMap) (out : σ × ValidityMap)
    (hrun : applyFold stp st v l = some out)
    (hnodup : (l.map (fun e => e.node.id)).Nodup) :
    (stepResults stp st l).map Prod.fst = l.map (fun e => e.node.id) ∧
    ∀ p ∈ stepResults stp st l,
      mapFind out.2 p.1 = some p.2 ∧ countKey out.2 p.1 = 1 := by
  have hfst := stepResults_map_fst stp l st v out hrun
  refine ⟨hfst, ?_⟩
  intro p hp
  rw [applyFold_validity_eq stp l st v out hrun]
  exact foldl_mapInsert_spec (stepResults stp st l) v (by rw [hfst]; exact hnodup) p hp

/-- C8 witness: a two-interaction run in which the first application
succeeds and the second fails; both ids appear exactly once with their
own validity. -/
theorem C8_validity_exactly_once_witness :
    (stepResults sampleStep Json.null [sampleOkEdge, sampleBadEdge]).map Prod.fst
        = [sampleOkEdge, sampleBadEdge].map (fun e => e.node.id) ∧
    ∀ p ∈ stepResults sampleStep Json.null [sampleOkEdge, sampleBadEdge],
      mapFind ([("tx1", true), ("tx2", false)] : ValidityMap) p.1 = some p.2 ∧
      countKey ([("tx1", true), ("tx2", false)] : ValidityMap) p.1 = 1 :=
  C8_validity_exactly_once sampleStep [sampleOkEdge, sampleBadEdge] Json.null []
    (Json.null, ([("tx1", true), ("tx2", false)] : ValidityMap)) rfl (by decide)

/-- Unfolding of the no-cache JavaScript path of `execute_contract`:
when the fetches, the init-state parse, the UTF-8 decode and the
runtime instantiation succeed, the run is exactly the interaction fold
over the sorted interaction list. -/
theorem execute_js_nocache (env : ExecEnv) (lc : LoadedContract)
    (fetched : List GQLEdgeInterface) (newIdx : Nat) (areNew : Bool)
    (st0 : Json) (src : String)
    (hlc : env.loadContract = some lc)
    (hty : lc.contract_type = ContractType.JAVASCRIPT)
    (hint : env.interactionsFetch = some (fetched, newIdx, areNew))
    (hinit : env.jsonParse lc.init_state = some st0)
    (hutf : env.utf8Decode lc.contract_src = some src)
    (hnew : env.jsNew src st0 (contractInfoOf lc) = true) :
    execute_contract env false =
      (applyFold (jsStep env src (contractInfoOf lc)) st0 []
        (sortedInteractions fetched)).map
        (fun p => ExecuteResult.V8 p.1 p.2) := by
  unfold execute_contract
  rw [hlc, hint]
  simp only [hty, hinit, hutf, hnew, chooseApplied, Bool.false_and, Bool.ite_eq_true_distrib,
    if_true, if_false, ite_true, ite_false]
  cases h : applyFold (jsStep env src (contractInfoOf lc)) st0 [] (sortedInteractions fetched) with
  | none => simp [h, hnew]
  | some p => simp [h, hnew]

/-- Unfolding of the no-cache WebAssembly path of `execute_contract`. -/
theorem execute_wasm_nocache (env : ExecEnv) (lc : LoadedContract)
    (fetched : List GQLEdgeInterface) (newIdx : Nat) (areNew : Bool)
    (hlc : env.loadContract = some lc)
    (hty : lc.contract_type = ContractType.WASM)
    (hint : env.interactionsFetch = some (fetched, newIdx, areNew))
    (hnew : env.wasmNew lc.contract_src (contractInfoOf lc) = true) :
    execute_contract env false =
      (applyFold (wasmStep env lc.contract_src (contractInfoOf lc))
        (strBytes lc.init_state) [] (sortedInteractions fetched)).bind
        (fun p => (env.bytesParse p.1).map (fun s => ExecuteResult.V8 s p.2)) := by
  unfold execute_contract
  rw [hlc, hint]
  simp only [hty, hnew, chooseApplied, Bool.false_and, if_true, if_false, ite_true, ite_false]
  cases h : applyFold (wasmStep env lc.contract_src (contractInfoOf lc))
      (strBytes lc.init_state) [] (sortedInteractions fetched) with
  | none => simp [h, hnew]
  | some p =>
    cases hb : env.bytesParse p.1 with
    | none => simp [h, hb, hnew]
    | some s => simp [h, hb, hnew]

/-- Unfolding of the cache-resuming JavaScript path of
`execute_contract`: a cache hit with new interactions folds the suffix
`interactions[new_interaction_index..]` starting from the cached state
and the cached validity. -/
theorem execute_js_cache_resume (env : ExecEnv) (lc : LoadedContract)
    (cs : CachedState) (fetched : List GQLEdgeInterface) (newIdx : Nat) (src : String)
    (hlc : env.loadContract = some lc)
    (hty : lc.contract_type = ContractType.JAVASCRIPT)
    (hint : env.interactionsFetch = some (fetched, newIdx, true))
    (hcs : env.findState = some cs)
    (hutf : env.utf8Decode lc.contract_src = some src)
    (hnew : env.jsNew src cs.state (contractInfoOf lc) = true)
    (hidx : newIdx ≤ (sortedInteractions fetched).length) :
    execute_contract env true =
      (applyFold (jsStep env src (contractInfoOf lc)) cs.state cs.validity
        ((sortedInteractions fetched).drop newIdx)).map
        (fun p => ExecuteResult.V8 p.1 p.2) := by
  unfold execute_contract
  rw [hlc, hint]
  simp only [hcs, hty, hutf, hnew, chooseApplied, Option.isSome_some, Bool.and_self,
    Bool.true_and, Bool.and_true, if_true, ite_true, if_pos hidx]
  cases h : applyFold (jsStep env src (contractInfoOf lc)) cs.state cs.validity
      ((sortedInteractions fetched).drop newIdx) with
  | none => simp [h, hnew]
  | some p => simp [h, hnew]

/-- C1: the engine sorts the fetched interactions by the key derived
from (block height, block id, tx id); comparison of two keys is the
lexicographic comparison height first, then block id, then tx id; the
order is total; and the no-cache replay fold consumes exactly the
sorted list. -/
theorem C1_sort_order (l : List GQLEdgeInterface) (hgood : ∀ e ∈ l, GoodEdge e) :
    (sortedInteractions l).Perm l ∧
    List.Pairwise (fun a b => edgeLE a b = true) (sortedInteractions l) ∧
    (∀ a b : GQLEdgeInterface, edgeLE a b = true ∨ edgeLE b a = true) ∧
    (∀ a b, a ∈ l → b ∈ l →
      lexCmp (edgeKey a) (edgeKey b) = tripleCmp (edgeTriple a) (edgeTriple b)) ∧
    (∀ (env : ExecEnv) (lc : LoadedContract) (newIdx : Nat) (areNew : Bool)
        (st0 : Json) (src : String),
      env.loadContract = some lc →
      lc.contract_type = ContractType.JAVASCRIPT →
      env.interactionsFetch = some (l, newIdx, areNew) →
      env.jsonParse lc.init_state = some st0 →
      env.utf8Decode lc.contract_src = some src →
      env.jsNew src st0 (contractInfoOf lc) = true →
      execute_contract env false =
        (applyFold (jsStep env src (contractInfoOf lc)) st0 [] (sortedInteractions l)).map
          (fun p => ExecuteResult.V8 p.1 p.2)) := by
  refine ⟨List.mergeSort_perm l edgeLE,
    List.sorted_mergeSort (fun a b c => edgeLE_trans a b c)
      (fun a b => by rcases edgeLE_total a b with h | h <;> simp [h]) l,
    edgeLE_total, ?_, ?_⟩
  · intro a b hma hmb
    exact edgeKey_cmp (hgood a hma) (hgood b hmb)
  · intro env lc newIdx areNew st0 src hlc hty hint hinit hutf hnew
    exact execute_js_nocache env lc l newIdx areNew st0 src hlc hty hint hinit hutf hnew

/-- C1 witness: the sorting properties at the spec's canonical-order
seed list. -/
theorem C1_sort_order_witness :
    (sortedInteractions [c1Edge1, c1Edge2, c1Edge3]).Perm [c1Edge1, c1Edge2, c1Edge3] ∧
    List.Pairwise (fun a b => edgeLE a b = true)
      (sortedInteractions [c1Edge1, c1Edge2, c1Edge3]) ∧
    (∀ a b : GQLEdgeInterface, edgeLE a b = true ∨ edgeLE b a = true) ∧
    (∀ a b, a ∈ [c1Edge1, c1Edge2, c1Edge3] → b ∈ [c1Edge1, c1Edge2, c1Edge3] →
      lexCmp (edgeKey a) (edgeKey b) = tripleCmp (edgeTriple a) (edgeTriple b)) ∧
    (∀ (env : ExecEnv) (lc : LoadedContract) (newIdx : Nat) (areNew : Bool)
        (st0 : Json) (src : String),
      env.loadContract = some lc →
      lc.contract_type = ContractType.JAVASCRIPT →
      env.interactionsFetch = some ([c1Edge1, c1Edge2, c1Edge3], newIdx, areNew) →
      env.jsonParse lc.init_state = some st0 →
      env.utf8Decode lc.contract_src = some src →
      env.jsNew src st0 (contractInfoOf lc) = true →
      execute_contract env false =
        (applyFold (jsStep env src (contractInfoOf lc)) st0 []
          (sortedInteractions [c1Edge1, c1Edge2, c1Edge3])).map
          (fun p => ExecuteResult.V8 p.1 p.2)) :=
  C1_sort_order [c1Edge1, c1Edge2, c1Edge3] (by decide)

/-- C9: `get_input_from_interaction` returns the value of the first tag
whose name is exactly the case-sensitive string `Input`, and the empty
string when no tag is named `Input`. -/
theorem C9_input_tag (tx : GQLNodeInterface) :
    ((∀ t ∈ tx.tags, t.name ≠ "Input") → get_input_from_interaction tx = "") ∧
    (∀ (pre : List GQLTagInterface) (t : GQLTagInterface) (post : List GQLTagInterface),
      tx.tags = pre ++ t :: post → (∀ t' ∈ pre, t'.name ≠ "Input") → t.name = "Input" →
      get_input_from_interaction tx = t.value) := by
  constructor
  · intro hnone
    unfold get_input_from_interaction
    have : tx.tags.find? (fun data => (data.name = "Input" : Bool)) = none := by
      rw [List.find?_eq_none]
      intro t ht
      simpa using hnone t ht
    rw [this]
  · intro pre t post htags hpre ht
    unfold get_input_from_interaction
    rw [htags]
    have hfind : (pre ++ t :: post).find? (fun data => (data.name = "Input" : Bool)) = some t := by
      rw [List.find?_append]
      have h1 : pre.find? (fun data => (data.name = "Input" : Bool)) = none := by
        rw [List.find?_eq_none]
        intro t' ht'
        simpa using hpre t' ht'
      rw [h1]
      have h2 : (decide (t.name = "Input")) = true := by
        simpa using ht
      rw [List.find?_cons_of_pos post h2]
      rfl
    rw [hfind]

/-- C9 witness: tag names are matched case-sensitively and the first
`Input` tag wins: with tags `input=a`, `Input=b`, `Input=c` the input is
`b`, and with no `Input` tag the input is the empty string. -/
theorem C9_input_tag_witness :
    get_input_from_interaction ⟨"t", ⟨"o"⟩, [⟨"input", "a"⟩, ⟨"Input", "b"⟩, ⟨"Input", "c"⟩], ⟨1, "b", "ts"⟩⟩ = "b" ∧
    get_input_from_interaction ⟨"t", ⟨"o"⟩, [⟨"INPUT", "a"⟩], ⟨1, "b", "ts"⟩⟩ = "" :=
  ⟨(C9_input_tag _).2 [⟨"input", "a"⟩] ⟨"Input", "b"⟩ [⟨"Input", "c"⟩] rfl (by decide) rfl,
    (C9_input_tag _).1 (by decide)⟩

/-- C2: a failed interaction never mutates the state consumed by the
rest of the replay.  Both step functions return the pre-call state on
failure, and for any such step the fold over `pre ++ e :: post`, when
`e`'s application fails, continues into `post` with exactly the state
`stPre` reached after `pre` (the state after interaction `i − 1`),
recording `false` for `e`. -/
theorem C2_failure_isolation (env : ExecEnv) (src : String) (wasmSrc : List Nat)
    (info : ContractInfo) :
    (∀ (st : Json) (tx : GQLNodeInterface) (st' : Json),
        jsStep env src info st tx = some (false, st') → st' = st) ∧
    (∀ (st : List Nat) (tx : GQLNodeInterface) (st' : List Nat),
        wasmStep env wasmSrc info st tx = some (false, st') → st' = st) ∧
    (∀ {σ : Type} (stp : σ → GQLNodeInterface → Option (Bool × σ)),
      (∀ (s : σ) (tx : GQLNodeInterface) (r : σ), stp s tx = some (false, r) → r = s) →
      ∀ (st0 : σ) (v0 : ValidityMap) (pre : List GQLEdgeInterface) (e : GQLEdgeInterface)
        (post : List GQLEdgeInterface) (stPre : σ) (vPre : ValidityMap) (r : σ),
        applyFold stp st0 v0 pre = some (stPre, vPre) →
        stp stPre e.node = some (false, r) →
        applyFold stp st0 v0 (pre ++ e :: post) =
          applyFold stp stPre (mapInsert vPre e.node.id false) post) := by
  refine ⟨?_, ?_, ?_⟩
  · intro st tx st' h
    unfold jsStep at h
    split at h
    · exact absurd h (by simp)
    · split at h
      · exact absurd h (by simp)
      · have := Option.some.inj h
        exact (congrArg Prod.snd this).symm
  · intro st tx st' h
    unfold wasmStep at h
    split at h
    · exact absurd h (by simp)
    · split at h
      · exact absurd h (by simp)
      · have := Option.some.inj h
        exact (congrArg Prod.snd this).symm
  · intro σ stp hpres st0 v0 pre e post stPre vPre r hpre hfail
    rw [applyFold_append, hpre]
    simp only [applyFold, hfail]
    rw [hpres stPre e.node r hfail]

/-- C2 witness: with the concrete failing interaction, the fold over
`[ok, bad]` continues after the failed `bad` with the untouched state
reached after `ok`. -/
theorem C2_failure_isolation_witness :
    applyFold sampleStep Json.null [] ([sampleOkEdge] ++ sampleBadEdge :: []) =
      applyFold sampleStep Json.null
        (mapInsert [("tx1", true)] sampleBadEdge.node.id false) [] :=
  (C2_failure_isolation sampleEnv "src" []
      (contractInfoOf ⟨⟨"c"⟩, ContractType.JAVASCRIPT, [], "{}"⟩)).2.2
    sampleStep
    (fun s tx r h =>
      (C2_failure_isolation sampleEnv "src" []
          (contractInfoOf ⟨⟨"c"⟩, ContractType.JAVASCRIPT, [], "{}"⟩)).1 s tx r h)
    Json.null [] [sampleOkEdge] sampleBadEdge [] Json.null [("tx1", true)] Json.null
    rfl rfl

/-- C3 counterexample: under `strictEnvOf`, the first interaction's
`Input` value `bad` does not parse; the replay does not mark the
interaction invalid and continue — it aborts: `execute_contract`
reaches no result (the Rust code `unwrap`s the parse and panics),
so the claimed interaction-local handling is refuted. -/
theorem C3_counterexample :
    execute_contract (strictEnvOf [strictBadEdge1, strictPlainEdge2]) false = none := by
  rw [execute_js_nocache (strictEnvOf [strictBadEdge1, strictPlainEdge2]) strictContract
    [strictBadEdge1, strictPlainEdge2] 0 false (Json.obj []) "src" rfl rfl rfl rfl rfl rfl]
  rw [show sortedInteractions [strictBadEdge1, strictPlainEdge2]
      = [strictBadEdge1, strictPlainEdge2] from List.mergeSort_of_sorted (by decide)]
  rfl

/-- C3 (amended): a JSON parse failure of an interaction's `Input` tag
is not interaction-local: the replay aborts with no result at the first
interaction whose input fails to parse (the code `unwrap`s the parse),
the interaction is not recorded in the validity table, and no later
interaction is applied. -/
theorem C3_parse_failure_aborts (env : ExecEnv) (lc : LoadedContract)
    (fetched pre post : List GQLEdgeInterface) (e : GQLEdgeInterface)
    (newIdx : Nat) (areNew : Bool) (st0 stPre : Json) (src : String) (vPre : ValidityMap)
    (hlc : env.loadContract = some lc)
    (hty : lc.contract_type = ContractType.JAVASCRIPT)
    (hint : env.interactionsFetch = some (fetched, newIdx, areNew))
    (hinit : env.jsonParse lc.init_state = some st0)
    (hutf : env.utf8Decode lc.contract_src = some src)
    (hnew : env.jsNew src st0 (contractInfoOf lc) = true)
    (hsorted : sortedInteractions fetched = pre ++ e :: post)
    (hpre : applyFold (jsStep env src (contractInfoOf lc)) st0 [] pre = some (stPre, vPre))
    (hparse : env.jsonParse (get_input_from_interaction e.node) = none) :
    execute_contract env false = none := by
  rw [execute_js_nocache env lc fetched newIdx areNew st0 src hlc hty hint hinit hutf hnew]
  rw [hsorted, applyFold_append, hpre]
  simp [applyFold, jsStep, hparse]

/-- C3 amended witness: a replay whose second interaction carries the
unparsable input aborts after the first interaction. -/
theorem C3_parse_failure_aborts_witness :
    execute_contract (strictEnvOf [strictPlainEdge1, strictBadEdge2]) false = none :=
  C3_parse_failure_aborts (strictEnvOf [strictPlainEdge1, strictBadEdge2]) strictContract
    [strictPlainEdge1, strictBadEdge2] [strictPlainEdge1] [] strictBadEdge2
    0 false (Json.obj []) (Json.obj []) "src" [("p1", true)]
    rfl rfl rfl rfl rfl rfl (List.mergeSort_of_sorted (by decide)) rfl rfl

/-- C4 counterexample: a failed contract fetch produces no
`ExecuteResult` at all — the replay terminates by panic (modelled by
`none`) instead of surfacing an error value; `ExecuteResult` has no
error-carrying variant a caller could receive. -/
theorem C4_counterexample :
    execute_contract { strictEnvOf [] with loadContract := none } false = none := rfl

/-- C4 (amended): every fatal error — ledger fetch failure (either
task), malformed init state, or VM instantiation failure — aborts the
replay with no result: the code panics on `unwrap` rather than
returning an error value, and `ExecuteResult` has no error variant.
Nothing is swallowed: no normal result is produced. -/
theorem C4_fatal_aborts (env : ExecEnv) :
    (∀ cache, env.loadContract = none → execute_contract env cache = none) ∧
    (∀ cache lc, env.loadContract = some lc → env.interactionsFetch = none →
      execute_contract env cache = none) ∧
    (∀ lc fetched newIdx areNew, env.loadContract = some lc →
      lc.contract_type = ContractType.JAVASCRIPT →
      env.interactionsFetch = some (fetched, newIdx, areNew) →
      env.jsonParse lc.init_state = none →
      execute_contract env false = none) ∧
    (∀ lc fetched newIdx areNew st0 src, env.loadContract = some lc →
      lc.contract_type = ContractType.JAVASCRIPT →
      env.interactionsFetch = some (fetched, newIdx, areNew) →
      env.jsonParse lc.init_state = some st0 →
      env.utf8Decode lc.contract_src = some src →
      env.jsNew src st0 (contractInfoOf lc) = false →
      execute_contract env false = none) ∧
    (∀ lc fetched newIdx areNew, env.loadContract = some lc →
      lc.contract_type = ContractType.WASM →
      env.interactionsFetch = some (fetched, newIdx, areNew) →
      env.wasmNew lc.contract_src (contractInfoOf lc) = false →
      execute_contract env false = none) := by
  refine ⟨?_, ?_, ?_, ?_, ?_⟩
  · intro cache h
    unfold execute_contract
    rw [h]
  · intro cache lc h1 h2
    unfold execute_contract
    rw [h1, h2]
  · intro lc fetched newIdx areNew hlc hty hint hinit
    unfold execute_contract
    rw [hlc, hint]
    simp [hty, hinit]
  · intro lc fetched newIdx areNew st0 src hlc hty hint hinit hutf hnew
    unfold execute_contract
    rw [hlc, hint]
    simp [hty, hinit, hutf, hnew]
  · intro lc fetched newIdx areNew hlc hty hint hnew
    unfold execute_contract
    rw [hlc, hint]
    simp [hty, hnew]

/-- C4 amended witness: a JavaScript contract whose init state does not
parse aborts with no result. -/
theorem C4_fatal_aborts_witness :
    execute_contract { strictEnvOf [] with
      loadContract := some ⟨⟨"c"⟩, ContractType.JAVASCRIPT, [], "oops"⟩ } false = none :=
  (C4_fatal_aborts { strictEnvOf [] with
      loadContract := some ⟨⟨"c"⟩, ContractType.JAVASCRIPT, [], "oops"⟩ }).2.2.1
    ⟨⟨"c"⟩, ContractType.JAVASCRIPT, [], "oops"⟩ [] 0 false rfl rfl rfl rfl

/-- C5: in a processing replay, the applied list is the suffix
`interactions[new_interaction_index..]` exactly when cache is enabled,
a cache entry was found and there are new interactions (Rust slicing
panics when the index exceeds the length); in every other processing
case the full sorted list is applied; and `execute_contract` runs its
fold over exactly that selection, both when resuming from the cache
and in a cold run. -/
theorem C5_applied_suffix (cache isCachePresent areNew : Bool) (newIdx : Nat)
    (interactions : List GQLEdgeInterface) :
    ((cache && isCachePresent && areNew) = true → newIdx ≤ interactions.length →
      chooseApplied cache isCachePresent areNew newIdx interactions
        = some (interactions.drop newIdx)) ∧
    ((cache && isCachePresent && areNew) = false →
      chooseApplied cache isCachePresent areNew newIdx interactions = some interactions) ∧
    (∀ (env : ExecEnv) (lc : LoadedContract) (cs : CachedState) (src : String),
      env.loadContract = some lc →
      lc.contract_type = ContractType.JAVASCRIPT →
      env.interactionsFetch = some (interactions, newIdx, true) →
      env.findState = some cs →
      env.utf8Decode lc.contract_src = some src →
      env.jsNew src cs.state (contractInfoOf lc) = true →
      newIdx ≤ (sortedInteractions interactions).length →
      execute_contract env true =
        (applyFold (jsStep env src (contractInfoOf lc)) cs.state cs.validity
          ((sortedInteractions interactions).drop newIdx)).map
          (fun p => ExecuteResult.V8 p.1 p.2)) ∧
    (∀ (env : ExecEnv) (lc : LoadedContract) (st0 : Json) (src : String) (areNew2 : Bool),
      env.loadContract = some lc →
      lc.contract_type = ContractType.JAVASCRIPT →
      env.interactionsFetch = some (interactions, newIdx, areNew2) →
      env.jsonParse lc.init_state = some st0 →
      env.utf8Decode lc.contract_src = some src →
      env.jsNew src st0 (contractInfoOf lc) = true →
      execute_contract env false =
        (applyFold (jsStep env src (contractInfoOf lc)) st0 []
          (sortedInteractions interactions)).map
          (fun p => ExecuteResult.V8 p.1 p.2)) := by
  refine ⟨?_, ?_, ?_, ?_⟩
  · intro hcond hidx
    simp [chooseApplied, hcond, hidx]
  · intro hcond
    simp [chooseApplied, hcond]
  · intro env lc cs src hlc hty hint hcs hutf hnew hidx
    exact execute_js_cache_resume env lc cs interactions newIdx src hlc hty hint hcs hutf hnew hidx
  · intro env lc st0 src areNew2 hlc hty hint hinit hutf hnew
    exact execute_js_nocache env lc interactions newIdx areNew2 st0 src hlc hty hint hinit hutf hnew

/-- C5 witness: with the cache resuming past index 1, exactly the
suffix after the first sorted interaction is selected. -/
theorem C5_applied_suffix_witness :
    chooseApplied true true true 1 [c1Edge1, c1Edge2] = some [c1Edge2] :=
  (C5_applied_suffix true true true 1 [c1Edge1, c1Edge2]).1 rfl (by decide)

/-- C6 counterexample: an EVM contract with a cache hit and no new
interactions does not return the cached state — it returns the null
state (with the cached validity), refuting the claim as stated for the
EVM contract type. -/
theorem C6_counterexample :
    evmCachedEnv.findState = some ⟨Json.str "cached", [("t", true)]⟩ ∧
    execute_contract evmCachedEnv true = some (ExecuteResult.V8 Json.null [("t", true)]) ∧
    execute_contract evmCachedEnv true
      ≠ some (ExecuteResult.V8 (Json.str "cached") [("t", true)]) := by
  refine ⟨rfl, rfl, ?_⟩
  intro h
  rw [show execute_contract evmCachedEnv true
      = some (ExecuteResult.V8 Json.null [("t", true)]) from rfl] at h
  have h2 := Option.some.inj h
  injection h2 with hs hv
  exact Json.noConfusion hs

/-- C6 (amended): when cache is enabled, a cache entry exists and there
are no new interactions, a JavaScript or WebAssembly contract returns
the cached state and cached validity unchanged — without instantiating
a runtime or applying an interaction (the result does not depend on
any runtime field of the environment); an EVM contract instead returns
the null state with the cached validity. -/
theorem C6_cache_short_circuit (env : ExecEnv) (lc : LoadedContract) (cs : CachedState)
    (fetched : List GQLEdgeInterface) (newIdx : Nat)
    (hlc : env.loadContract = some lc)
    (hint : env.interactionsFetch = some (fetched, newIdx, false))
    (hcs : env.findState = some cs) :
    ((lc.contract_type = ContractType.JAVASCRIPT ∨ lc.contract_type = ContractType.WASM) →
      execute_contract env true = some (ExecuteResult.V8 cs.state cs.validity)) ∧
    (lc.contract_type = ContractType.EVM →
      execute_contract env true = some (ExecuteResult.V8 Json.null cs.validity)) := by
  constructor
  · intro hty
    unfold execute_contract
    rw [hlc, hint]
    rcases hty with h | h <;> simp [hcs, h]
  · intro h
    unfold execute_contract
    rw [hlc, hint]
    simp [hcs, h]

/-- C6 amended witness: a JavaScript contract with a cache hit and no
new interactions returns the cached pair unchanged. -/
theorem C6_cache_short_circuit_witness :
    execute_contract
      { strictEnvOf [] with findState := some ⟨Json.str "s", [("t", true)]⟩ } true
      = some (ExecuteResult.V8 (Json.str "s") [("t", true)]) :=
  (C6_cache_short_circuit
    { strictEnvOf [] with findState := some ⟨Json.str "s", [("t", true)]⟩ }
    strictContract ⟨Json.str "s", [("t", true)]⟩ [] 0 rfl rfl rfl).1 (Or.inl rfl)

/-- C7 counterexample: `ExecuteResult` carries no distinct JavaScript
and WebAssembly variants: a JavaScript run and a WebAssembly run of
contracts of different types produce literally equal results (both the
single `V8` variant), so no tag distinguishes them. -/
theorem C7_counterexample :
    strictContract.contract_type = ContractType.JAVASCRIPT ∧
    wasmContract.contract_type = ContractType.WASM ∧
    execute_contract (strictEnvOf []) false = some (ExecuteResult.V8 (Json.obj []) []) ∧
    execute_contract wasmVariantEnv false = execute_contract (strictEnvOf []) false := by
  have hjs : execute_contract (strictEnvOf []) false
      = some (ExecuteResult.V8 (Json.obj []) []) := by
    rw [execute_js_nocache (strictEnvOf []) strictContract [] 0 false (Json.obj []) "src"
      rfl rfl rfl rfl rfl rfl]
    rw [show sortedInteractions [] = [] from List.mergeSort_nil]
    rfl
  have hwasm : execute_contract wasmVariantEnv false
      = some (ExecuteResult.V8 (Json.obj []) []) := by
    rw [execute_wasm_nocache wasmVariantEnv wasmContract [] 0 false rfl rfl rfl rfl]
    rw [show sortedInteractions [] = [] from List.mergeSort_nil]
    rfl
  exact ⟨rfl, rfl, hjs, hwasm.trans hjs.symm⟩

/-- C7 (amended): `ExecuteResult` has two variants, `V8` and `Evm`;
every result `execute_contract` produces uses the `V8` variant — for
JavaScript, WebAssembly and EVM contracts alike — and an EVM contract
returns the null state with the accumulated validity (empty on a cold
run); the `Evm` variant is never returned. -/
theorem C7_result_variants (env : ExecEnv) (cache : Bool) :
    (∀ r, execute_contract env cache = some r →
      ∃ s v, r = ExecuteResult.V8 s v) ∧
    (∀ lc fetched newIdx areNew, env.loadContract = some lc →
      lc.contract_type = ContractType.EVM →
      env.interactionsFetch = some (fetched, newIdx, areNew) →
      execute_contract env false = some (ExecuteResult.V8 Json.null [])) := by
  constructor
  · intro r h
    unfold execute_contract at h
    dsimp only at h
    repeat' split at h
    all_goals first
      | exact Option.noConfusion h
      | exact ⟨_, _, (Option.some.inj h).symm⟩
  · intro lc fetched newIdx areNew hlc hty hint
    unfold execute_contract
    rw [hlc, hint]
    simp [hty]

/-- C7 amended witness: the EVM run of the counterexample environment
is itself a `V8` result, and an EVM cold run returns the null state. -/
theorem C7_result_variants_witness :
    (∃ s v, ExecuteResult.V8 Json.null ([("t", true)] : ValidityMap) = ExecuteResult.V8 s v) ∧
    execute_contract evmCachedEnv false = some (ExecuteResult.V8 Json.null []) :=
  ⟨(C7_result_variants evmCachedEnv true).1 (ExecuteResult.V8 Json.null [("t", true)]) rfl,
    (C7_result_variants evmCachedEnv false).2 evmContract [] 0 false rfl rfl rfl⟩

/-- C10: the ledger context handed to the runtimes always carries the
block `{height := 0, indep_hash := "", timestamp := ""}`: the result of
`execute_contract` is unchanged when the runtime functions of the
environment are replaced by any functions that agree on `ContractInfo`s
with that default block — regardless of the block metadata of the
contract transaction or of any interaction. -/
theorem C10_default_block (env env' : ExecEnv) (cache : Bool)
    (hload : env'.loadContract = env.loadContract)
    (hint : env'.interactionsFetch = env.interactionsFetch)
    (hfind : env'.findState = env.findState)
    (hutf : env'.utf8Decode = env.utf8Decode)
    (hparse : env'.jsonParse = env.jsonParse)
    (hser : env'.jsonSerialize = env.jsonSerialize)
    (hbytes : env'.jsonToBytes = env.jsonToBytes)
    (hbp : env'.bytesParse = env.bytesParse)
    (hjsNew : ∀ src st info, info.block = ⟨0, "", ""⟩ →
      env'.jsNew src st info = env.jsNew src st info)
    (hjsCall : ∀ src info st inp, info.block = ⟨0, "", ""⟩ →
      env'.jsCall src info st inp = env.jsCall src info st inp)
    (hwasmNew : ∀ wasmSrc info, info.block = ⟨0, "", ""⟩ →
      env'.wasmNew wasmSrc info = env.wasmNew wasmSrc info)
    (hwasmCall : ∀ wasmSrc info st inp, info.block = ⟨0, "", ""⟩ →
      env'.wasmCall wasmSrc info st inp = env.wasmCall wasmSrc info st inp) :
    (∀ lc : LoadedContract, (contractInfoOf lc).block = ⟨0, "", ""⟩) ∧
    execute_contract env' cache = execute_contract env cache := by
  refine ⟨fun lc => rfl, ?_⟩
  unfold execute_contract
  rw [hload, hint, hfind, hparse, hutf, hser, hbp]
  cases env.loadContract with
  | none => rfl
  | some lc =>
    cases env.interactionsFetch with
    | none => rfl
    | some trip =>
      obtain ⟨fetched, newIdx, areNew⟩ := trip
      have hstep : ∀ src, jsStep env' src (contractInfoOf lc)
          = jsStep env src (contractInfoOf lc) := by
        intro src
        funext st tx
        unfold jsStep
        rw [hparse]
        have hc : ∀ st2 inp, env'.jsCall src (contractInfoOf lc) st2 inp
            = env.jsCall src (contractInfoOf lc) st2 inp :=
          fun st2 inp => hjsCall src (contractInfoOf lc) st2 inp rfl
        simp only [hc]
      have hwstep : ∀ ws, wasmStep env' ws (contractInfoOf lc)
          = wasmStep env ws (contractInfoOf lc) := by
        intro ws
        funext st tx
        unfold wasmStep
        rw [hparse, hbytes]
        have hc : ∀ st2 inp, env'.wasmCall ws (contractInfoOf lc) st2 inp
            = env.wasmCall ws (contractInfoOf lc) st2 inp :=
          fun st2 inp => hwasmCall ws (contractInfoOf lc) st2 inp rfl
        simp only [hc]
      have hn1 : ∀ src st, env'.jsNew src st (contractInfoOf lc)
          = env.jsNew src st (contractInfoOf lc) :=
        fun src st => hjsNew src st (contractInfoOf lc) rfl
      have hn2 : ∀ ws, env'.wasmNew ws (contractInfoOf lc)
          = env.wasmNew ws (contractInfoOf lc) :=
        fun ws => hwasmNew ws (contractInfoOf lc) rfl
      simp only [hstep, hwstep, hn1, hn2]

/-- C10 witness: the invariance theorem applied to the concrete
environment (with itself as the replacement). -/
theorem C10_default_block_witness :
    (∀ lc : LoadedContract, (contractInfoOf lc).block = ⟨0, "", ""⟩) ∧
    execute_contract (strictEnvOf []) false = execute_contract (strictEnvOf []) false :=
  C10_default_block (strictEnvOf []) (strictEnvOf []) false rfl rfl rfl rfl rfl rfl rfl rfl
    (fun _ _ _ _ => rfl) (fun _ _ _ _ _ => rfl) (fun _ _ _ => rfl) (fun _ _ _ _ _ => rfl)

end ThreeEM
